import Mathlib

/-!
Verification of the Relative Output Stability (ROS) metric
(`quantus/metrics/robustness/relative_output_stability.py`).

Arrays are embedded as a shape (list of dimension sizes) together with
row-major flat data over the reals.  NumPy's `nan` sentinel, which the
sampling loop writes into the draw matrix when a perturbation changes the
prediction, is embedded as `none : Option ℝ`, and `np.max`'s
nan-propagating pairwise maximum as `rmax`.  Fallible operations
(unsupported tensor rank, broadcasting failures, index errors) return
`Except Err`.
-/

set_option linter.unusedVariables false

namespace Ros

open scoped Classical

/-- Split a flat list into consecutive chunks of size `k`
(the row-major blocks of the trailing axes of an array). -/
def chunk {α : Type} (k : ℕ) (l : List α) : List (List α) :=
  (List.range (l.length / k)).map (fun i => (l.drop (i * k)).take k)

/-- Sum of squares of a list of reals. -/
noncomputable def sumSq (v : List ℝ) : ℝ :=
  (v.map (fun x => x * x)).sum

/-- Euclidean (L2 / Frobenius) norm of a flat block, as computed by
`np.linalg.norm` with the default order. -/
noncomputable def l2norm (v : List ℝ) : ℝ :=
  Real.sqrt (sumSq v)

/-- A dense n-dimensional array: shape and row-major flat data. -/
structure Arr (α : Type) where
  shape : List ℕ
  data : List α

/-- Size of the last axis of a shape. -/
def lastDim (s : List ℕ) : ℕ := s.getLastD 1

/-- Combined size of the last two axes of a shape. -/
def last2Prod (s : List ℕ) : ℕ := lastDim s * lastDim s.dropLast

/-- `np.linalg.norm(arr, axis=-1)`: L2 norm over the last axis. -/
noncomputable def normLast (a : Arr ℝ) : Arr ℝ :=
  ⟨a.shape.dropLast, (chunk (lastDim a.shape) a.data).map l2norm⟩

/-- `np.linalg.norm(arr, axis=(-1,-2))`: Frobenius norm over the last two
axes (the square root of the sum of squares of each trailing block). -/
noncomputable def normLast2 (a : Arr ℝ) : Arr ℝ :=
  ⟨a.shape.dropLast.dropLast, (chunk (last2Prod a.shape) a.data).map l2norm⟩

/-- NumPy broadcasting of a single pair of dimension sizes. -/
def bdim (x y : ℕ) : Option ℕ :=
  if x = y then some x
  else if x = 1 then some y
  else if y = 1 then some x
  else none

/-- Broadcast two reversed shapes (aligned from the last axis). -/
def bshapeRev : List ℕ → List ℕ → Option (List ℕ)
  | [], ys => some ys
  | xs, [] => some xs
  | x :: xs, y :: ys =>
    match bdim x y, bshapeRev xs ys with
    | some d, some ds => some (d :: ds)
    | _, _ => none

/-- NumPy broadcast of two shapes (right-aligned), `none` when the shapes
are incompatible. -/
def bshape (xs ys : List ℕ) : Option (List ℕ) :=
  (bshapeRev xs.reverse ys.reverse).map List.reverse

/-- Multi-index of the `i`-th element of a row-major array of the given
shape. -/
def unflatten : List ℕ → ℕ → List ℕ
  | [], _ => []
  | _d :: ds, i => (i / ds.prod) :: unflatten ds (i % ds.prod)

/-- Flat index of a multi-index in a row-major array of the given shape. -/
def flattenIx : List ℕ → List ℕ → ℕ
  | _, [] => 0
  | [], _ => 0
  | _d :: ds, i :: is => i * ds.prod + flattenIx ds is

/-- Flat source index corresponding to a broadcast result multi-index:
keep the trailing coordinates and clamp axes of size 1 to 0. -/
def srcIndex (s : List ℕ) (ix : List ℕ) : ℕ :=
  flattenIx s (List.zipWith (fun d i => if d = 1 then 0 else i) s (ix.drop (ix.length - s.length)))

/-- Element of `a` contributing to position `i` of a broadcast result of
shape `S`. -/
def broadcastGet {α : Type} (a : Arr α) (dflt : α) (S : List ℕ) (i : ℕ) : α :=
  a.data.getD (srcIndex a.shape (unflatten S i)) dflt

/-- Error conditions of the metric core. -/
inductive Err where
  | unsupportedShape
  | shapeMismatch
  | indexError
  | emptyReduce
deriving DecidableEq

/-- Elementwise binary operation with NumPy broadcasting. -/
def broadcastOp {α : Type} (f : α → α → α) (dflt : α) (a b : Arr α) : Except Err (Arr α) :=
  match bshape a.shape b.shape with
  | none => Except.error Err.shapeMismatch
  | some S => Except.ok ⟨S, (List.range S.prod).map (fun i => f (broadcastGet a dflt S i) (broadcastGet b dflt S i))⟩

/-- `np.broadcast_to`: broadcast an array to a target shape, as used by
NumPy when assigning into a row of a larger array. -/
def broadcastTo {α : Type} (a : Arr α) (dflt : α) (T : List ℕ) : Option (Arr α) :=
  if bshape a.shape T = some T then
    some ⟨T, (List.range T.prod).map (fun i => broadcastGet a dflt T i)⟩
  else
    none

/-- The run succeeded. -/
def okP {α : Type} (e : Except Err α) : Prop := ∃ a, e = Except.ok a

/-- Value of a successful run, or a default. -/
def okValD {α : Type} (e : Except Err α) (d : α) : α :=
  match e with
  | Except.ok a => a
  | Except.error _ => d

/-- Entry `p` of a successfully computed row of the draw matrix. -/
def getEntry (e : Except Err (List (Option ℝ))) (p : ℕ) : Option ℝ :=
  (okValD e []).getD p none

/-- The per-element zero guard of the numerator:
`e_x + (e_x == 0) * eps_min` (line 279 of the source). -/
noncomputable def guardElem (eps : ℝ) (e : ℝ) : ℝ :=
  e + (if e = 0 then 1 else 0) * eps

/-- `(e_x - e_xs) / (e_x + (e_x == 0) * eps_min)`: the elementwise
numerator tensor before norm reduction (line 279). -/
noncomputable def nominatorArr (eps : ℝ) (e_x e_xs : Arr ℝ) : Arr ℝ :=
  ⟨e_x.shape, List.zipWith (fun a b => (a - b) / guardElem eps a) e_x.data e_xs.data⟩

/-- The denominator: `np.linalg.norm(h_x - h_xs, axis=-1)` followed by
`denominator += (denominator == 0) * eps_min` (lines 283-285). -/
noncomputable def denominatorArr (eps : ℝ) (h_x h_xs : Arr ℝ) : Arr ℝ :=
  let d0 := normLast ⟨h_x.shape, List.zipWith (fun a b => a - b) h_x.data h_xs.data⟩
  ⟨d0.shape, d0.data.map (fun x => x + (if x = 0 then 1 else 0) * eps)⟩

/-- Rank dispatch of the norm function (lines 259-276): rank 4 and rank 5
with multi-label use a two-stage reduction, rank 3 a joint norm over the
last two axes, rank 2 a norm over the last axis; anything else is
unsupported. -/
noncomputable def normFor (ml : Bool) (numDim : ℕ) : Option (Arr ℝ → Arr ℝ) :=
  if numDim = 4 then some (fun arr => normLast (normLast2 arr))
  else if numDim = 3 then some normLast2
  else if numDim = 2 then some normLast
  else if numDim = 5 ∧ ml = true then some (fun arr => normLast (normLast2 arr))
  else none

/-- `np.expand_dims(denominator, axis=-1)` (line 289). -/
def expandLast {α : Type} (a : Arr α) : Arr α :=
  ⟨a.shape ++ [1], a.data⟩

/-- `RelativeOutputStability.relative_output_stability_objective`
(lines 231-293): rank dispatch, guarded elementwise numerator reduced by
the selected norm, guarded per-sample L2 denominator, and the final
(broadcast) division, with the denominator expanded by a trailing axis in
multi-label mode. -/
noncomputable def relative_output_stability_objective
    (ml : Bool) (eps : ℝ) (h_x h_xs e_x e_xs : Arr ℝ) : Except Err (Arr ℝ) :=
  match normFor ml e_x.shape.length with
  | none => Except.error Err.unsupportedShape
  | some nf =>
    let nominator := nf (nominatorArr eps e_x e_xs)
    let denominator := denominatorArr eps h_x h_xs
    if ml then broadcastOp (fun a b => a / b) 0 nominator (expandLast denominator)
    else broadcastOp (fun a b => a / b) 0 nominator denominator

/-- Modelled from the spec: the guard-free objective the spec describes in
§4.2 after correcting the numerator of §8/C1 — the rank-dispatched norm of
the elementwise quotient `(e_x - e_xs) / e_x` divided by the per-sample L2
norm of `h_x - h_xs`, with no `eps_min` guard anywhere. -/
noncomputable def objectiveNoGuard
    (ml : Bool) (h_x h_xs e_x e_xs : Arr ℝ) : Except Err (Arr ℝ) :=
  match normFor ml e_x.shape.length with
  | none => Except.error Err.unsupportedShape
  | some nf =>
    let nominator := nf ⟨e_x.shape, List.zipWith (fun a b => (a - b) / a) e_x.data e_xs.data⟩
    let denominator := normLast ⟨h_x.shape, List.zipWith (fun a b => a - b) h_x.data h_xs.data⟩
    if ml then broadcastOp (fun a b => a / b) 0 nominator (expandLast denominator)
    else broadcastOp (fun a b => a / b) 0 nominator denominator

/-- Modelled from the spec: the literal reading of claim C1 / §8, in which
the numerator is the quotient of norms `norm(e_x - e_xs) / norm(e_x)`
rather than the norm of the elementwise quotient, divided by the
per-sample L2 norm of `h_x - h_xs` (no guard, as C1 asserts none fires). -/
noncomputable def objectiveSpecNormQuotient
    (ml : Bool) (h_x h_xs e_x e_xs : Arr ℝ) : Except Err (Arr ℝ) :=
  match normFor ml e_x.shape.length with
  | none => Except.error Err.unsupportedShape
  | some nf =>
    let nomDiff := nf ⟨e_x.shape, List.zipWith (fun a b => a - b) e_x.data e_xs.data⟩
    let nomEx := nf e_x
    let denominator := normLast ⟨h_x.shape, List.zipWith (fun a b => a - b) h_x.data h_xs.data⟩
    match broadcastOp (fun a b => a / b) 0 nomDiff nomEx with
    | Except.error e => Except.error e
    | Except.ok nominator =>
      if ml then broadcastOp (fun a b => a / b) 0 nominator (expandLast denominator)
      else broadcastOp (fun a b => a / b) 0 nominator denominator

/-- Final result of `evaluate_batch`: a flat per-sample list, a nested
per-sample-per-label list (multi-label), or a one-element aggregated
sequence. -/
inductive Scores where
  | flat : List (Option ℝ) → Scores
  | nested : List (List (Option ℝ)) → Scores
  | agg : List (Option ℝ) → Scores

/-- The external collaborators of `evaluate_batch`: the model's `predict`,
the explanation function, the perturbation (taking the draw index as its
source of fresh randomness), the prediction-change detector, and the
optional aggregate function. -/
structure Collab where
  predict : Arr ℝ → Arr ℝ
  explain : Arr ℝ → Arr ℝ
  perturb : ℕ → Arr ℝ → Arr ℝ
  changed : Arr ℝ → Arr ℝ → List ℕ
  aggregate : Scores → Option ℝ

/-- Construction-time configuration of the metric. -/
structure Config where
  multiLabel : Bool
  returnAggregate : Bool
  nrSamples : ℕ
  epsMin : ℝ

/-- `np.maximum` on draw-matrix cells: NaN (`none`) propagates. -/
noncomputable def rmax (a b : Option ℝ) : Option ℝ :=
  match a, b with
  | some x, some y => some (max x y)
  | _, _ => none

/-- `np.max(ros_batch, axis=0)` (line 368): elementwise reduction of the
draw rows by `rmax`; reducing an empty axis is an error in NumPy. -/
noncomputable def maxRows : List (List (Option ℝ)) → Except Err (List (Option ℝ))
  | [] => Except.error Err.emptyReduce
  | r :: rs => Except.ok (rs.foldl (fun acc row => List.zipWith rmax acc row) r)

/-- `ros_batch[index, changed_prediction_indices] = np.nan` (line 365):
write NaN into every cell of the row whose leading coordinate is a changed
index (`inner` is the size of the trailing label axis, 1 when absent). -/
def invalidate (inner : ℕ) (idxs : List ℕ) (row : List (Option ℝ)) : List (Option ℝ) :=
  (List.range row.length).map (fun p => if p / inner ∈ idxs then none else row.getD p none)

/-- Short-circuiting effectful map, as a Python `for` loop of fallible
lookups. -/
def mapME {α β : Type} (f : α → Except Err β) : List α → Except Err (List β)
  | [] => Except.ok []
  | x :: xs =>
    match f x with
    | Except.error e => Except.error e
    | Except.ok b =>
      match mapME f xs with
      | Except.error e => Except.error e
      | Except.ok bs => Except.ok (b :: bs)

/-- The multi-label reshape (lines 370-377): for each sample, select that
sample's active labels from the reduced `(N, L)` result. -/
def mlReshape (N L : ℕ) (res : List (Option ℝ)) (y : List (List ℕ)) :
    Except Err (List (List (Option ℝ))) :=
  mapME
    (fun pr =>
      mapME
        (fun l =>
          if pr.1 < N ∧ l < L then Except.ok (res.getD (pr.1 * L + l) none)
          else Except.error Err.indexError)
        pr.2)
    y.enum

/-- Shape of one row of the draw matrix (lines 328-337): `[N, L]` from the
explanation batch in multi-label mode, else `[N]` from the input batch. -/
def rowShapeOf (ml : Bool) (x a : Arr ℝ) : List ℕ :=
  if ml then [a.shape.getD 0 0, a.shape.getD 1 0] else [x.shape.getD 0 0]

/-- One draw's objective row before the NaN guard (lines 341-357): perturb,
explain, predict on the perturbed batch, compute the objective against the
baseline `logits`, and broadcast it onto the draw-matrix row shape. -/
noncomputable def rosRowOf (C : Collab) (ml : Bool) (eps : ℝ)
    (logits x a : Arr ℝ) (rowShape : List ℕ) (d : ℕ) : Except Err (Arr ℝ) :=
  let xp := C.perturb d x
  let ap := C.explain xp
  let lp := C.predict xp
  match relative_output_stability_objective ml eps logits lp a ap with
  | Except.error e => Except.error e
  | Except.ok ros =>
    match broadcastTo ros (0 : ℝ) rowShape with
    | none => Except.error Err.shapeMismatch
    | some r => Except.ok r

/-- One full draw (lines 341-365): the objective row followed by the
prediction-change NaN guard. -/
noncomputable def drawStep (C : Collab) (ml : Bool) (eps : ℝ)
    (logits x a : Arr ℝ) (rowShape : List ℕ) (d : ℕ) : Except Err (List (Option ℝ)) :=
  match rosRowOf C ml eps logits x a rowShape d with
  | Except.error e => Except.error e
  | Except.ok rosB =>
    let changed := C.changed x (C.perturb d x)
    let row0 := rosB.data.map some
    Except.ok (if changed = [] then row0 else invalidate ((rowShape.drop 1).prod) changed row0)

/-- The sampling loop (lines 339-365): run draws `0 .. n-1` in order,
accumulating the draw matrix rows and the perturbed batches handed to
`model.predict`, stopping at the first failing draw. -/
noncomputable def runDraws (C : Collab) (ml : Bool) (eps : ℝ)
    (logits x a : Arr ℝ) (rowShape : List ℕ) :
    ℕ → Except Err (List (List (Option ℝ))) × List (Arr ℝ)
  | 0 => (Except.ok [], [])
  | n + 1 =>
    match runDraws C ml eps logits x a rowShape n with
    | (Except.error e, t) => (Except.error e, t)
    | (Except.ok rows, t) =>
      match drawStep C ml eps logits x a rowShape n with
      | Except.error e => (Except.error e, t ++ [C.perturb n x])
      | Except.ok row => (Except.ok (rows ++ [row]), t ++ [C.perturb n x])

/-- The reduction of the draw matrix to one score per sample (line 368). -/
noncomputable def reducedResult (res : Except Err (List (List (Option ℝ)))) :
    Except Err (List (Option ℝ)) :=
  match res with
  | Except.error e => Except.error e
  | Except.ok rows => maxRows rows

/-- Post-processing of the draw matrix (lines 367-382): max over the draw
axis, optional multi-label reshape, optional batch aggregation. -/
noncomputable def postProcess (cfg : Config) (C : Collab) (y : List (List ℕ)) (N L : ℕ)
    (res : Except Err (List (List (Option ℝ)))) : Except Err Scores :=
  match reducedResult res with
  | Except.error e => Except.error e
  | Except.ok result =>
    if cfg.multiLabel then
      match mlReshape N L result y with
      | Except.error e => Except.error e
      | Except.ok nested =>
        let s := Scores.nested nested
        Except.ok (if cfg.returnAggregate then Scores.agg [C.aggregate s] else s)
    else
      let s := Scores.flat result
      Except.ok (if cfg.returnAggregate then Scores.agg [C.aggregate s] else s)

/-- `RelativeOutputStability.evaluate_batch` (lines 295-382).  Returns the
scores together with the ordered list of batches passed to
`model.predict`: the baseline batch once, before the loop, then one
perturbed batch per completed draw. -/
noncomputable def evaluate_batch (cfg : Config) (C : Collab)
    (x : Arr ℝ) (y : List (List ℕ)) (a : Arr ℝ) :
    Except Err Scores × List (Arr ℝ) :=
  let logits := C.predict x
  let rowShape := rowShapeOf cfg.multiLabel x a
  let dr := runDraws C cfg.multiLabel cfg.epsMin logits x a rowShape cfg.nrSamples
  (postProcess cfg C y (a.shape.getD 0 0) (a.shape.getD 1 0) dr.1, x :: dr.2)

/-- Deterministic stub collaborators: identity perturbation, constant
logits and explanations, a prediction-change detector that always reports
sample 0. -/
def stubC5 : Collab where
  predict := fun _ => ⟨[1, 1], [0]⟩
  explain := fun _ => ⟨[1, 2], [0, 0]⟩
  perturb := fun _ v => v
  changed := fun _ _ => [0]
  aggregate := fun _ => none

/-- Deterministic stub collaborators: identity perturbation, constant
logits and explanations, a prediction-change detector that never fires. -/
def stubC9 : Collab where
  predict := fun _ => ⟨[1, 1], [0]⟩
  explain := fun _ => ⟨[1, 2], [0, 0]⟩
  perturb := fun _ v => v
  changed := fun _ _ => []
  aggregate := fun _ => none

/-- Multi-label stub collaborators with a rank-3 explanation tensor of
shape `2 × 1 × 3` (trailing label axis, as claim C7 posits). -/
def stubC7 : Collab where
  predict := fun _ => ⟨[2, 2], [1, 0, 0, 1]⟩
  explain := fun _ => ⟨[2, 1, 3], [1, 1, 1, 1, 1, 1]⟩
  perturb := fun _ v => v
  changed := fun _ _ => []
  aggregate := fun _ => none

/-- Multi-label stub collaborators with a rank-5 explanation tensor of
shape `1 × 1 × 1 × 1 × 1` (label axis in position 1). -/
def stubC7w : Collab where
  predict := fun _ => ⟨[1, 1], [0]⟩
  explain := fun _ => ⟨[1, 1, 1, 1, 1], [0]⟩
  perturb := fun _ v => v
  changed := fun _ _ => []
  aggregate := fun _ => none

/-! ## Helper lemmas -/

theorem getD_zipWith {α β γ : Type} (f : α → β → γ) (l1 : List α) (l2 : List β)
    (i : ℕ) (d1 : α) (d2 : β) (d3 : γ) (h1 : i < l1.length) (h2 : i < l2.length) :
    (List.zipWith f l1 l2).getD i d3 = f (l1.getD i d1) (l2.getD i d2) := by
  rw [List.getD_eq_getElem?_getD, List.getD_eq_getElem?_getD, List.getD_eq_getElem?_getD,
    List.getElem?_zipWith', List.getElem?_eq_getElem h1, List.getElem?_eq_getElem h2]
  simp

theorem getD_map_range {β : Type} (f : ℕ → β) (n i : ℕ) (d : β) (h : i < n) :
    ((List.range n).map f).getD i d = f i := by
  rw [List.getD_eq_getElem?_getD, List.getElem?_map]
  simp [List.getElem?_range, h]

theorem length_zipWith_eq {α β γ : Type} (f : α → β → γ) (l1 : List α) (l2 : List β) (m : ℕ)
    (h1 : l1.length = m) (h2 : l2.length = m) :
    (List.zipWith f l1 l2).length = m := by
  simp [List.length_zipWith, h1, h2]

theorem addGuard_eq (eps x : ℝ) : x + (if x = 0 then 1 else 0) * eps = if x = 0 then eps else x := by
  split <;> simp [*]

theorem guardElem_eq (eps e : ℝ) : guardElem eps e = if e = 0 then eps else e := by
  unfold guardElem
  exact addGuard_eq eps e

theorem bdim_self (x : ℕ) : bdim x x = some x := by
  simp [bdim]

theorem bdim_one_right (x : ℕ) : bdim x 1 = some x := by
  unfold bdim
  rcases eq_or_ne x 1 with h | h <;> simp [h]

theorem bshapeRev_self : ∀ s : List ℕ, bshapeRev s s = some s
  | [] => rfl
  | x :: s => by
    rw [bshapeRev, bdim_self, bshapeRev_self s]

theorem bshape_self (s : List ℕ) : bshape s s = some s := by
  simp [bshape, bshapeRev_self]

theorem bshape_expand (n l : ℕ) : bshape [n, l] [n, 1] = some [n, l] := by
  simp [bshape, bshapeRev, bdim_one_right, bdim_self]

theorem broadcastOp_ok {α : Type} (f : α → α → α) (d : α) (a b : Arr α) (S : List ℕ)
    (h : bshape a.shape b.shape = some S) :
    broadcastOp f d a b =
      Except.ok ⟨S, (List.range S.prod).map
        (fun i => f (broadcastGet a d S i) (broadcastGet b d S i))⟩ := by
  unfold broadcastOp
  rw [h]

theorem broadcastOp_err {α : Type} (f : α → α → α) (d : α) (a b : Arr α)
    (h : bshape a.shape b.shape = none) :
    broadcastOp f d a b = Except.error Err.shapeMismatch := by
  unfold broadcastOp
  rw [h]

theorem broadcastTo_ok {α : Type} (a : Arr α) (d : α) (T : List ℕ)
    (h : bshape a.shape T = some T) :
    broadcastTo a d T = some ⟨T, (List.range T.prod).map (fun i => broadcastGet a d T i)⟩ := by
  unfold broadcastTo
  rw [if_pos h]

theorem broadcastTo_err {α : Type} (a : Arr α) (d : α) (T : List ℕ)
    (h : ¬ bshape a.shape T = some T) :
    broadcastTo a d T = none := by
  unfold broadcastTo
  rw [if_neg h]

theorem normLast_shape (a : Arr ℝ) : (normLast a).shape = a.shape.dropLast := rfl

theorem normLast2_shape (a : Arr ℝ) : (normLast2 a).shape = a.shape.dropLast.dropLast := rfl

theorem nominatorArr_shape (eps : ℝ) (x y : Arr ℝ) : (nominatorArr eps x y).shape = x.shape := rfl

theorem denominatorArr_shape (eps : ℝ) (x y : Arr ℝ) :
    (denominatorArr eps x y).shape = x.shape.dropLast := rfl

theorem expandLast_shape {α : Type} (a : Arr α) : (expandLast a).shape = a.shape ++ [1] := rfl

theorem normFor_two (ml : Bool) : normFor ml 2 = some normLast := by
  simp [normFor]

theorem normFor_three (ml : Bool) : normFor ml 3 = some normLast2 := by
  simp [normFor]

theorem normFor_four (ml : Bool) : normFor ml 4 = some (fun arr => normLast (normLast2 arr)) := by
  simp [normFor]

theorem normFor_five_ml : normFor true 5 = some (fun arr => normLast (normLast2 arr)) := by
  simp [normFor]

theorem normFor_none (ml : Bool) (numDim : ℕ) (h2 : numDim ≠ 2) (h3 : numDim ≠ 3)
    (h4 : numDim ≠ 4) (h5 : ¬(numDim = 5 ∧ ml = true)) : normFor ml numDim = none := by
  simp [normFor, h2, h3, h4, h5]

theorem objective_eq_of_normFor (ml : Bool) (eps : ℝ) (h_x h_xs e_x e_xs : Arr ℝ)
    (nf : Arr ℝ → Arr ℝ) (h : normFor ml e_x.shape.length = some nf) :
    relative_output_stability_objective ml eps h_x h_xs e_x e_xs =
      if ml then
        broadcastOp (fun a b => a / b) 0 (nf (nominatorArr eps e_x e_xs))
          (expandLast (denominatorArr eps h_x h_xs))
      else
        broadcastOp (fun a b => a / b) 0 (nf (nominatorArr eps e_x e_xs))
          (denominatorArr eps h_x h_xs) := by
  unfold relative_output_stability_objective
  rw [h]

theorem objective_unsupported (ml : Bool) (eps : ℝ) (h_x h_xs e_x e_xs : Arr ℝ)
    (h : normFor ml e_x.shape.length = none) :
    relative_output_stability_objective ml eps h_x h_xs e_x e_xs =
      Except.error Err.unsupportedShape := by
  unfold relative_output_stability_objective
  rw [h]

theorem objective_okP_single (eps : ℝ) (h_x h_xs e_x e_xs : Arr ℝ) (n c : ℕ)
    (hh : h_x.shape = [n, c])
    (he : (∃ k1, e_x.shape = [n, k1]) ∨ (∃ k1 k2, e_x.shape = [n, k1, k2]) ∨
      (∃ k1 k2 k3, e_x.shape = [n, k1, k2, k3])) :
    ∃ dta, relative_output_stability_objective false eps h_x h_xs e_x e_xs =
      Except.ok ⟨[n], dta⟩ := by
  have hden : (denominatorArr eps h_x h_xs).shape = [n] := by
    rw [denominatorArr_shape, hh]
    rfl
  rcases he with ⟨k1, he⟩ | ⟨k1, k2, he⟩ | ⟨k1, k2, k3, he⟩
  · have hnf : normFor false e_x.shape.length = some normLast := by
      rw [he]
      exact normFor_two false
    rw [objective_eq_of_normFor false eps h_x h_xs e_x e_xs _ hnf]
    simp only [Bool.false_eq_true, if_false]
    have hnom : (normLast (nominatorArr eps e_x e_xs)).shape = [n] := by
      rw [normLast_shape, nominatorArr_shape, he]
      rfl
    exact ⟨_, broadcastOp_ok _ _ _ _ [n] (by rw [hnom, hden]; exact bshape_self [n])⟩
  · have hnf : normFor false e_x.shape.length = some normLast2 := by
      rw [he]
      exact normFor_three false
    rw [objective_eq_of_normFor false eps h_x h_xs e_x e_xs _ hnf]
    simp only [Bool.false_eq_true, if_false]
    have hnom : (normLast2 (nominatorArr eps e_x e_xs)).shape = [n] := by
      rw [normLast2_shape, nominatorArr_shape, he]
      rfl
    exact ⟨_, broadcastOp_ok _ _ _ _ [n] (by rw [hnom, hden]; exact bshape_self [n])⟩
  · have hnf : normFor false e_x.shape.length = some (fun arr => normLast (normLast2 arr)) := by
      rw [he]
      exact normFor_four false
    rw [objective_eq_of_normFor false eps h_x h_xs e_x e_xs _ hnf]
    simp only [Bool.false_eq_true, if_false]
    have hnom : (normLast (normLast2 (nominatorArr eps e_x e_xs))).shape = [n] := by
      rw [normLast_shape, normLast2_shape, nominatorArr_shape, he]
      rfl
    exact ⟨_, broadcastOp_ok _ _ _ _ [n] (by rw [hnom, hden]; exact bshape_self [n])⟩

theorem objective_okP_ml5 (eps : ℝ) (h_x h_xs e_x e_xs : Arr ℝ) (n c l k1 k2 k3 : ℕ)
    (hh : h_x.shape = [n, c]) (he : e_x.shape = [n, l, k1, k2, k3]) :
    ∃ dta, relative_output_stability_objective true eps h_x h_xs e_x e_xs =
      Except.ok ⟨[n, l], dta⟩ := by
  have hnf : normFor true e_x.shape.length = some (fun arr => normLast (normLast2 arr)) := by
    rw [he]
    exact normFor_five_ml
  rw [objective_eq_of_normFor true eps h_x h_xs e_x e_xs _ hnf]
  simp only [if_true]
  have hnom : (normLast (normLast2 (nominatorArr eps e_x e_xs))).shape = [n, l] := by
    rw [normLast_shape, normLast2_shape, nominatorArr_shape, he]
    rfl
  have hden : (expandLast (denominatorArr eps h_x h_xs)).shape = [n, 1] := by
    rw [expandLast_shape, denominatorArr_shape, hh]
    rfl
  exact ⟨_, broadcastOp_ok _ _ _ _ [n, l] (by rw [hnom, hden]; exact bshape_expand n l)⟩

theorem rosRowOf_eq_of_objective (C : Collab) (ml : Bool) (eps : ℝ)
    (logits x a : Arr ℝ) (rowShape : List ℕ) (d : ℕ) (S : List ℕ) (dta : List ℝ)
    (hobj : relative_output_stability_objective ml eps logits (C.predict (C.perturb d x)) a
      (C.explain (C.perturb d x)) = Except.ok ⟨S, dta⟩)
    (hb : bshape S rowShape = some rowShape) :
    rosRowOf C ml eps logits x a rowShape d =
      Except.ok ⟨rowShape, (List.range rowShape.prod).map
        (fun i => broadcastGet ⟨S, dta⟩ (0 : ℝ) rowShape i)⟩ := by
  unfold rosRowOf
  simp only [hobj]
  rw [broadcastTo_ok (⟨S, dta⟩ : Arr ℝ) (0 : ℝ) rowShape hb]

theorem drawStep_eq_of_row (C : Collab) (ml : Bool) (eps : ℝ)
    (logits x a : Arr ℝ) (rowShape : List ℕ) (d : ℕ) (r : Arr ℝ)
    (h : rosRowOf C ml eps logits x a rowShape d = Except.ok r) :
    drawStep C ml eps logits x a rowShape d =
      Except.ok
        (if C.changed x (C.perturb d x) = [] then r.data.map some
         else invalidate ((rowShape.drop 1).prod) (C.changed x (C.perturb d x)) (r.data.map some)) := by
  unfold drawStep
  rw [h]

theorem drawStep_okP (C : Collab) (ml : Bool) (eps : ℝ)
    (logits x a : Arr ℝ) (rowShape : List ℕ) (d : ℕ)
    (h : okP (rosRowOf C ml eps logits x a rowShape d)) :
    okP (drawStep C ml eps logits x a rowShape d) := by
  obtain ⟨r, hr⟩ := h
  exact ⟨_, drawStep_eq_of_row C ml eps logits x a rowShape d r hr⟩

theorem drawStep_err (C : Collab) (ml : Bool) (eps : ℝ)
    (logits x a : Arr ℝ) (rowShape : List ℕ) (d : ℕ) (e : Err)
    (h : rosRowOf C ml eps logits x a rowShape d = Except.error e) :
    drawStep C ml eps logits x a rowShape d = Except.error e := by
  unfold drawStep
  rw [h]

theorem runDraws_ok_parts (C : Collab) (ml : Bool) (eps : ℝ)
    (logits x a : Arr ℝ) (rowShape : List ℕ) :
    ∀ (n : ℕ) (rows : List (List (Option ℝ))),
      (runDraws C ml eps logits x a rowShape n).1 = Except.ok rows →
      rows.length = n ∧
      (runDraws C ml eps logits x a rowShape n).2 =
        (List.range n).map (fun d => C.perturb d x) ∧
      ∀ d, d < n → drawStep C ml eps logits x a rowShape d = Except.ok (rows.getD d [])
  | 0, rows => by
    intro h
    simp only [runDraws] at h ⊢
    injection h with h
    subst h
    exact ⟨rfl, rfl, fun d hd => absurd hd (Nat.not_lt_zero d)⟩
  | n + 1, rows => by
    intro h
    rw [runDraws] at h
    rcases hrec : runDraws C ml eps logits x a rowShape n with ⟨res, t⟩
    rw [hrec] at h
    cases res with
    | error e => exact absurd h (by simp)
    | ok rows0 =>
      rcases hds : drawStep C ml eps logits x a rowShape n with e | row
      · rw [hds] at h
        exact absurd h (by simp)
      · rw [hds] at h
        simp only at h
        injection h with h
        subst h
        obtain ⟨hlen, htr, hall⟩ :=
          runDraws_ok_parts C ml eps logits x a rowShape n rows0 (by rw [hrec])
        refine ⟨by simp [hlen], ?_, ?_⟩
        · rw [runDraws, hrec, hds]
          simp only
          rw [hrec] at htr
          simp only at htr
          rw [htr, List.range_succ, List.map_append]
          simp
        · intro d hd
          rcases Nat.lt_succ_iff_lt_or_eq.mp hd with hd' | hd'
          · rw [List.getD_append _ _ _ _ (by rw [hlen]; exact hd')]
            exact hall d hd'
          · subst hd'
            rw [List.getD_append_right _ _ _ _ (by rw [hlen])]
            rw [hlen]
            simpa using hds

theorem runDraws_okP_of (C : Collab) (ml : Bool) (eps : ℝ)
    (logits x a : Arr ℝ) (rowShape : List ℕ) :
    ∀ n : ℕ, (∀ d, d < n → okP (drawStep C ml eps logits x a rowShape d)) →
      okP ((runDraws C ml eps logits x a rowShape n).1)
  | 0, _ => ⟨[], by simp [runDraws]⟩
  | n + 1, h => by
    obtain ⟨rows, hrows⟩ :=
      runDraws_okP_of C ml eps logits x a rowShape n (fun d hd => h d (Nat.lt_succ_of_lt hd))
    obtain ⟨row, hrow⟩ := h n (Nat.lt_succ_self n)
    rcases hrec : runDraws C ml eps logits x a rowShape n with ⟨res, t⟩
    rw [hrec] at hrows
    simp only at hrows
    subst hrows
    exact ⟨rows ++ [row], by rw [runDraws, hrec, hrow]⟩

theorem rmax_none_left (a : Option ℝ) : rmax none a = none := by
  cases a <;> rfl

theorem rmax_none_right (a : Option ℝ) : rmax a none = none := by
  cases a <;> rfl

theorem maxRows_cons (r : List (Option ℝ)) (rs : List (List (Option ℝ))) :
    maxRows (r :: rs) = Except.ok (rs.foldl (fun acc row => List.zipWith rmax acc row) r) := rfl

theorem foldl_zipWith_length (m : ℕ) :
    ∀ (rs : List (List (Option ℝ))) (acc : List (Option ℝ)),
      acc.length = m → (∀ s ∈ rs, s.length = m) →
      (rs.foldl (fun acc row => List.zipWith rmax acc row) acc).length = m
  | [], acc => fun ha _ => ha
  | r :: rs, acc => fun ha hs => by
    rw [List.foldl_cons]
    exact foldl_zipWith_length m rs _
      (length_zipWith_eq _ _ _ m ha (hs r (by simp)))
      (fun s h => hs s (by simp [h]))

theorem foldl_zipWith_getD (m p : ℕ) (hp : p < m) :
    ∀ (rs : List (List (Option ℝ))) (acc : List (Option ℝ)),
      acc.length = m → (∀ s ∈ rs, s.length = m) →
      (rs.foldl (fun acc row => List.zipWith rmax acc row) acc).getD p none =
        rs.foldl (fun o s => rmax o (s.getD p none)) (acc.getD p none)
  | [], acc => fun _ _ => rfl
  | r :: rs, acc => fun ha hs => by
    rw [List.foldl_cons, List.foldl_cons]
    rw [foldl_zipWith_getD m p hp rs _
      (length_zipWith_eq _ _ _ m ha (hs r (by simp)))
      (fun s h => hs s (by simp [h]))]
    rw [getD_zipWith rmax acc r p none none none (by rw [ha]; exact hp)
      (by rw [hs r (by simp)]; exact hp)]

theorem foldl_rmax_none (l : List (Option ℝ)) : List.foldl rmax none l = none := by
  induction l with
  | nil => rfl
  | cons a l ih => rw [List.foldl_cons, rmax_none_left, ih]

theorem foldl_rmax_of_mem_none (l : List (Option ℝ)) (acc : Option ℝ) (h : none ∈ l) :
    List.foldl rmax acc l = none := by
  induction l generalizing acc with
  | nil => simp at h
  | cons a l ih =>
    rw [List.foldl_cons]
    rcases List.mem_cons.mp h with h' | h'
    · rw [← h', rmax_none_right, foldl_rmax_none]
    · exact ih _ h'

theorem foldl_rmax_somes (v : ℝ) (vs : List ℝ) :
    List.foldl rmax (some v) (vs.map some) = some (List.foldl max v vs) := by
  induction vs generalizing v with
  | nil => rfl
  | cons w vs ih => rw [List.map_cons, List.foldl_cons, List.foldl_cons]; exact ih (max v w)

theorem mapME_ok {α β : Type} (f : α → Except Err β) (g : α → β) :
    ∀ l : List α, (∀ x ∈ l, f x = Except.ok (g x)) → mapME f l = Except.ok (l.map g)
  | [] => fun _ => rfl
  | x :: l => fun h => by
    rw [mapME, h x (by simp), mapME_ok f g l (fun z hz => h z (by simp [hz]))]
    simp

theorem invalidate_length (inner : ℕ) (idxs : List ℕ) (row : List (Option ℝ)) :
    (invalidate inner idxs row).length = row.length := by
  simp [invalidate]

theorem invalidate_getD_mem (inner : ℕ) (idxs : List ℕ) (row : List (Option ℝ)) (p : ℕ)
    (h : p / inner ∈ idxs) :
    (invalidate inner idxs row).getD p none = none := by
  rcases Nat.lt_or_ge p row.length with hp | hp
  · unfold invalidate
    rw [getD_map_range _ _ _ _ hp, if_pos h]
  · exact List.getD_eq_default _ _ (by rw [invalidate_length]; exact hp)

theorem invalidate_getD_not_mem (inner : ℕ) (idxs : List ℕ) (row : List (Option ℝ)) (p : ℕ)
    (hp : p < row.length) (h : ¬ p / inner ∈ idxs) :
    (invalidate inner idxs row).getD p none = row.getD p none := by
  unfold invalidate
  rw [getD_map_range _ _ _ _ hp, if_neg h]

theorem enum_getD (l : List (List ℕ)) (i : ℕ) (h : i < l.length) :
    l.enum.getD i (0, []) = (i, l.getD i []) := by
  rw [List.getD_eq_getElem?_getD, List.getD_eq_getElem?_getD, List.getElem?_enum,
    List.getElem?_eq_getElem h]
  simp

theorem chunk_length {α : Type} (k : ℕ) (l : List α) :
    (chunk k l).length = l.length / k := by
  simp [chunk]

theorem chunk_getD {α : Type} (k i : ℕ) (l : List α) (h : i < l.length / k) :
    (chunk k l).getD i [] = (l.drop (i * k)).take k := by
  unfold chunk
  rw [getD_map_range _ _ _ _ h]

theorem sumSq_nonneg (v : List ℝ) : 0 ≤ sumSq v := by
  unfold sumSq
  apply List.sum_nonneg
  intro x hx
  obtain ⟨y, _, rfl⟩ := List.mem_map.mp hx
  exact mul_self_nonneg y

theorem l2norm_nonneg (v : List ℝ) : 0 ≤ l2norm v := Real.sqrt_nonneg _

theorem l2norm_eq_zero_iff (v : List ℝ) : l2norm v = 0 ↔ sumSq v = 0 := by
  unfold l2norm
  constructor
  · intro h
    have := (Real.sqrt_eq_zero (sumSq_nonneg v)).mp h
    exact this
  · intro h
    rw [h, Real.sqrt_zero]

theorem sumSq_replicate_zero (n : ℕ) : sumSq (List.replicate n (0 : ℝ)) = 0 := by
  induction n with
  | zero => rfl
  | succ n ih =>
    rw [List.replicate_succ]
    unfold sumSq at ih ⊢
    simp only [List.map_cons, List.sum_cons, ih]
    simp

theorem zipWith_sub_self (l : List ℝ) :
    List.zipWith (fun a b => a - b) l l = List.replicate l.length (0 : ℝ) := by
  induction l with
  | nil => rfl
  | cons a l ih => simp [List.replicate_succ, ih]

theorem getD_map_lt {α β : Type} (f : α → β) (l : List α) (i : ℕ) (dα : α) (dβ : β)
    (h : i < l.length) : (l.map f).getD i dβ = f (l.getD i dα) := by
  rw [List.getD_eq_getElem?_getD, List.getElem?_map, List.getElem?_eq_getElem h,
    List.getD_eq_getElem _ _ h]
  simp

theorem zipWith_congr_fn {α β γ : Type} (f g : α → β → γ) :
    ∀ (l1 : List α) (l2 : List β), (∀ a ∈ l1, ∀ b, f a b = g a b) →
      List.zipWith f l1 l2 = List.zipWith g l1 l2
  | [], l2 => fun _ => by simp
  | a :: l1, [] => fun _ => by simp
  | a :: l1, b :: l2 => fun h => by
    rw [List.zipWith_cons_cons, List.zipWith_cons_cons, h a (by simp) b,
      zipWith_congr_fn f g l1 l2 (fun z hz => h z (by simp [hz]))]

theorem foldl_col_none (g : List (Option ℝ) → Option ℝ) :
    ∀ l : List (List (Option ℝ)), l.foldl (fun o s => rmax o (g s)) none = none
  | [] => rfl
  | s :: l => by
    rw [List.foldl_cons, rmax_none_left]
    exact foldl_col_none g l

theorem foldl_col_mem_none (g : List (Option ℝ) → Option ℝ) :
    ∀ (l : List (List (Option ℝ))) (acc : Option ℝ) (s : List (Option ℝ)),
      s ∈ l → g s = none → l.foldl (fun o s => rmax o (g s)) acc = none
  | [], acc, s => fun h _ => absurd h (List.not_mem_nil s)
  | t :: l, acc, s => fun h hg => by
    rw [List.foldl_cons]
    rcases List.mem_cons.mp h with h1 | h1
    · rw [← h1, hg, rmax_none_right]
      exact foldl_col_none g l
    · exact foldl_col_mem_none g l _ s h1 hg

/-! ## Claims -/

/-- C2: inside the numerator of `relative_output_stability_objective`, the
elementwise quotient divides `e_x - e_xs` by `eps_min` exactly where the
corresponding element of `e_x` is zero and by the unchanged element
otherwise, and (for positive `eps_min`) that divisor is never zero, so no
element is a pure zero-division. -/
theorem claim_C2 (eps : ℝ) (heps : 0 < eps) (e_x e_xs : Arr ℝ) (i : ℕ)
    (hi : i < e_x.data.length) (hlen : e_xs.data.length = e_x.data.length) :
    (nominatorArr eps e_x e_xs).data.getD i 0 =
      (e_x.data.getD i 0 - e_xs.data.getD i 0) /
        (if e_x.data.getD i 0 = 0 then eps else e_x.data.getD i 0)
    ∧ (if e_x.data.getD i 0 = 0 then eps else e_x.data.getD i 0) ≠ 0 := by
  constructor
  · show (List.zipWith _ e_x.data e_xs.data).getD i 0 = _
    rw [getD_zipWith _ _ _ i 0 0 0 hi (by rw [hlen]; exact hi), guardElem_eq]
  · split
    · exact ne_of_gt heps
    · next h => exact h

/-- Witness for C2: `e_x = [0, 3]` contains a zero element; at index 0 the
divisor is the guard value `eps_min = 1` and the quotient is `(0 - 1)/1`. -/
theorem claim_C2_witness :
    (nominatorArr 1 ⟨[2], [0, 3]⟩ ⟨[2], [1, 1]⟩).data.getD 0 0 = (0 - 1) / 1 ∧ (1 : ℝ) ≠ 0 := by
  have h := claim_C2 1 (by norm_num) ⟨[2], [0, 3]⟩ ⟨[2], [1, 1]⟩ 0 (by simp) (by simp)
  simpa using h

/-- C3: every entry of the denominator is the per-sample L2 norm of
`h_x - h_xs` when that norm is nonzero and exactly `eps_min` when it is
zero; in particular when `h_x` and `h_xs` coincide every entry is exactly
`eps_min`, which is nonzero. -/
theorem claim_C3 (eps : ℝ) (heps : 0 < eps) (h_x h_xs : Arr ℝ) :
    (∀ i, i < (denominatorArr eps h_x h_xs).data.length →
      (denominatorArr eps h_x h_xs).data.getD i 0 =
        (if l2norm ((chunk (lastDim h_x.shape)
              (List.zipWith (fun a b => a - b) h_x.data h_xs.data)).getD i []) = 0
         then eps
         else l2norm ((chunk (lastDim h_x.shape)
              (List.zipWith (fun a b => a - b) h_x.data h_xs.data)).getD i [])))
    ∧ (h_x.data = h_xs.data →
        ∀ i, i < (denominatorArr eps h_x h_xs).data.length →
          (denominatorArr eps h_x h_xs).data.getD i 0 = eps)
    ∧ eps ≠ 0 := by
  have hlen : (denominatorArr eps h_x h_xs).data.length =
      (chunk (lastDim h_x.shape) (List.zipWith (fun a b => a - b) h_x.data h_xs.data)).length := by
    simp [denominatorArr, normLast]
  have hentry : ∀ i, i < (denominatorArr eps h_x h_xs).data.length →
      (denominatorArr eps h_x h_xs).data.getD i 0 =
        (if l2norm ((chunk (lastDim h_x.shape)
              (List.zipWith (fun a b => a - b) h_x.data h_xs.data)).getD i []) = 0
         then eps
         else l2norm ((chunk (lastDim h_x.shape)
              (List.zipWith (fun a b => a - b) h_x.data h_xs.data)).getD i [])) := by
    intro i hi
    have hi' : i < (chunk (lastDim h_x.shape)
        (List.zipWith (fun a b => a - b) h_x.data h_xs.data)).length := by
      rw [← hlen]; exact hi
    show ((List.map l2norm _).map _).getD i 0 = _
    rw [getD_map_lt _ _ i 0 0 (by simpa using hi'), getD_map_lt l2norm _ i [] 0 hi', addGuard_eq]
  refine ⟨hentry, ?_, ne_of_gt heps⟩
  intro hdata i hi
  rw [hentry i hi]
  have hzip : List.zipWith (fun a b => a - b) h_x.data h_xs.data =
      List.replicate h_xs.data.length (0 : ℝ) := by
    rw [hdata]
    exact zipWith_sub_self h_xs.data
  have hchunk : (chunk (lastDim h_x.shape)
      (List.zipWith (fun a b => a - b) h_x.data h_xs.data)).getD i [] =
      List.replicate (min (lastDim h_x.shape)
        (h_xs.data.length - i * lastDim h_x.shape)) (0 : ℝ) := by
    rw [chunk_getD _ _ _ (by rw [← chunk_length, ← hlen]; exact hi), hzip,
      List.drop_replicate, List.take_replicate]
  rw [hchunk]
  rw [if_pos ((l2norm_eq_zero_iff _).mpr (sumSq_replicate_zero _))]

/-- Witness for C3 with `h_x = h_xs`: the denominator entry is exactly
`eps_min = 1`, and `eps_min ≠ 0`. -/
theorem claim_C3_witness :
    (denominatorArr 1 ⟨[1, 2], [3, 4]⟩ ⟨[1, 2], [3, 4]⟩).data.getD 0 0 = 1 ∧ (1 : ℝ) ≠ 0 := by
  have h := claim_C3 1 (by norm_num) ⟨[1, 2], [3, 4]⟩ ⟨[1, 2], [3, 4]⟩
  exact ⟨h.2.1 rfl 0 (by norm_num [denominatorArr, normLast, chunk, lastDim]), h.2.2⟩

/-- C4: with a rank-2 logits batch, the objective succeeds on rank-2,
rank-3 and rank-4 explanation tensors and fails with the unsupported-shape
error on every other rank. -/
theorem claim_C4 (eps : ℝ) (h_x h_xs e_x e_xs : Arr ℝ) (n c : ℕ)
    (hh : h_x.shape = [n, c]) :
    (((∃ k1, e_x.shape = [n, k1]) ∨ (∃ k1 k2, e_x.shape = [n, k1, k2]) ∨
       (∃ k1 k2 k3, e_x.shape = [n, k1, k2, k3])) →
      okP (relative_output_stability_objective false eps h_x h_xs e_x e_xs))
    ∧ (e_x.shape.length ≠ 2 → e_x.shape.length ≠ 3 → e_x.shape.length ≠ 4 →
        relative_output_stability_objective false eps h_x h_xs e_x e_xs =
          Except.error Err.unsupportedShape) := by
  constructor
  · intro he
    obtain ⟨dta, hd⟩ := objective_okP_single eps h_x h_xs e_x e_xs n c hh he
    exact ⟨_, hd⟩
  · intro h2 h3 h4
    exact objective_unsupported _ _ _ _ _ _ (normFor_none false _ h2 h3 h4 (by simp))

/-- Witness for C4: a rank-3 explanation tensor succeeds; rank-1 and
rank-6 tensors abort with the unsupported-shape error. -/
theorem claim_C4_witness :
    okP (relative_output_stability_objective false 1 ⟨[1, 2], [0, 0]⟩ ⟨[1, 2], [0, 0]⟩
      ⟨[1, 1, 3], [0, 0, 0]⟩ ⟨[1, 1, 3], [0, 0, 0]⟩)
    ∧ relative_output_stability_objective false 1 ⟨[1, 2], [0, 0]⟩ ⟨[1, 2], [0, 0]⟩
        ⟨[3], [0, 0, 0]⟩ ⟨[3], [0, 0, 0]⟩ = Except.error Err.unsupportedShape
    ∧ relative_output_stability_objective false 1 ⟨[1, 2], [0, 0]⟩ ⟨[1, 2], [0, 0]⟩
        ⟨[1, 1, 1, 1, 1, 3], [0, 0, 0]⟩ ⟨[1, 1, 1, 1, 1, 3], [0, 0, 0]⟩ =
          Except.error Err.unsupportedShape := by
  refine ⟨?_, ?_, ?_⟩
  · exact (claim_C4 1 ⟨[1, 2], [0, 0]⟩ ⟨[1, 2], [0, 0]⟩ ⟨[1, 1, 3], [0, 0, 0]⟩
      ⟨[1, 1, 3], [0, 0, 0]⟩ 1 2 rfl).1 (Or.inr (Or.inl ⟨1, 3, rfl⟩))
  · exact (claim_C4 1 ⟨[1, 2], [0, 0]⟩ ⟨[1, 2], [0, 0]⟩ ⟨[3], [0, 0, 0]⟩
      ⟨[3], [0, 0, 0]⟩ 1 2 rfl).2 (by decide) (by decide) (by decide)
  · exact (claim_C4 1 ⟨[1, 2], [0, 0]⟩ ⟨[1, 2], [0, 0]⟩ ⟨[1, 1, 1, 1, 1, 3], [0, 0, 0]⟩
      ⟨[1, 1, 1, 1, 1, 3], [0, 0, 0]⟩ 1 2 rfl).2 (by decide) (by decide) (by decide)

/-- C6: the reducer of `evaluate_batch` takes, per sample, the maximum of
the draw rows along axis 0: the reduced entry at each position is the
`rmax`-fold of that position's column, a fold that on NaN-free columns is
the plain maximum of the values; with a single draw the result is exactly
that draw's row. -/
theorem claim_C6 (m : ℕ) (r : List (Option ℝ)) (rs : List (List (Option ℝ)))
    (hr : r.length = m) (hrs : ∀ s ∈ rs, s.length = m) :
    (∃ res, maxRows (r :: rs) = Except.ok res ∧ res.length = m ∧
      ∀ p, p < m → res.getD p none =
        rs.foldl (fun o s => rmax o (s.getD p none)) (r.getD p none))
    ∧ maxRows [r] = Except.ok r
    ∧ ∀ (v : ℝ) (vs : List ℝ),
        List.foldl rmax (some v) (vs.map some) = some (List.foldl max v vs) := by
  refine ⟨⟨_, maxRows_cons r rs, foldl_zipWith_length m rs r hr hrs, ?_⟩, rfl, foldl_rmax_somes⟩
  intro p hp
  exact foldl_zipWith_getD m p hp rs r hr hrs

/-- Witness for C6 on a concrete two-draw matrix with one sample. -/
theorem claim_C6_witness :
    (∃ res, maxRows [[some (1 : ℝ)], [some 2]] = Except.ok res ∧ res.length = 1 ∧
      ∀ p, p < 1 → res.getD p none =
        [[some (2 : ℝ)]].foldl (fun o s => rmax o (s.getD p none)) ([some (1 : ℝ)].getD p none))
    ∧ maxRows [[some (1 : ℝ)]] = Except.ok [some 1]
    ∧ ∀ (v : ℝ) (vs : List ℝ),
        List.foldl rmax (some v) (vs.map some) = some (List.foldl max v vs) :=
  claim_C6 1 [some 1] [[some 2]] (by simp) (by simp)

/-- C10: `np.max` over the draw axis propagates NaN: if the
prediction-change guard wrote NaN into some draw's row at a position, the
reduced result at that position is NaN, not the maximum of the remaining
draws. -/
theorem claim_C10 (m inner d i p : ℕ) (rows : List (List (Option ℝ)))
    (r0 : List (Option ℝ)) (ch : List ℕ)
    (hm : ∀ s ∈ rows, s.length = m) (hd : d < rows.length)
    (hrow : rows.getD d [] = invalidate inner ch r0)
    (hi : i ∈ ch) (hpi : p / inner = i) (hp : p < m) :
    ∃ res, maxRows rows = Except.ok res ∧ res.getD p none = none := by
  have hcol : (invalidate inner ch r0).getD p none = none :=
    invalidate_getD_mem inner ch r0 p (by rw [hpi]; exact hi)
  cases rows with
  | nil => simp at hd
  | cons r rs =>
    refine ⟨_, maxRows_cons r rs, ?_⟩
    rw [foldl_zipWith_getD m p hp rs r (hm r (by simp)) (fun s h => hm s (by simp [h]))]
    cases d with
    | zero =>
      have hr : r = invalidate inner ch r0 := by simpa using hrow
      rw [hr, hcol]
      exact foldl_col_none _ rs
    | succ j =>
      have hj : j < rs.length := by simpa using hd
      have hsv : rs.getD j [] = invalidate inner ch r0 := by simpa using hrow
      refine foldl_col_mem_none _ rs _ (rs.getD j []) ?_ (by rw [hsv]; exact hcol)
      rw [List.getD_eq_getElem _ _ hj]
      exact List.getElem_mem hj

/-- Witness for C10: one draw, one sample, the guard invalidated sample 0,
so the reduced score of sample 0 is NaN. -/
theorem claim_C10_witness :
    ∃ res, maxRows [invalidate 1 [0] [some (1 : ℝ)]] = Except.ok res ∧ res.getD 0 none = none :=
  claim_C10 1 1 0 0 0 [invalidate 1 [0] [some 1]] [some 1] [0]
    (by intro s hs; simp at hs; rw [hs, invalidate_length]; rfl)
    (by simp) (by simp) (by simp) (by simp) (by simp)

theorem postProcess_agg (cfg : Config) (C : Collab) (y : List (List ℕ)) (N L : ℕ)
    (res : Except Err (List (List (Option ℝ)))) :
    postProcess { cfg with returnAggregate := true } C y N L res =
      (postProcess { cfg with returnAggregate := false } C y N L res).map
        (fun s => Scores.agg [C.aggregate s]) := by
  cases hred : reducedResult res with
  | error e => simp [postProcess, hred, Except.map]
  | ok result =>
    by_cases hml : cfg.multiLabel = true
    · cases hrs : mlReshape N L result y with
      | error e => simp [postProcess, hred, hml, hrs, Except.map]
      | ok nested => simp [postProcess, hred, hml, hrs, Except.map]
    · simp [postProcess, hred, hml, Except.map]

/-- C5: in each draw, every sample index reported by the prediction-change
detector has its draw-matrix entries overwritten with NaN regardless of
the computed objective value, and this never turns a successful draw into
an error or aborts the loop. -/
theorem claim_C5 (C : Collab) (ml : Bool) (eps : ℝ) (logits x a : Arr ℝ)
    (rowShape : List ℕ) (d i : ℕ)
    (hok : okP (rosRowOf C ml eps logits x a rowShape d))
    (hi : i ∈ C.changed x (C.perturb d x)) :
    okP (drawStep C ml eps logits x a rowShape d)
    ∧ (∀ p, p / (rowShape.drop 1).prod ∈ C.changed x (C.perturb d x) →
        getEntry (drawStep C ml eps logits x a rowShape d) p = none)
    ∧ ∀ n : ℕ, (∀ j, j < n → okP (rosRowOf C ml eps logits x a rowShape j)) →
        okP ((runDraws C ml eps logits x a rowShape n).1) := by
  obtain ⟨r, hr⟩ := hok
  have hne : C.changed x (C.perturb d x) ≠ [] := by
    intro h0
    rw [h0] at hi
    simp at hi
  have hds := drawStep_eq_of_row C ml eps logits x a rowShape d r hr
  rw [if_neg hne] at hds
  refine ⟨⟨_, hds⟩, ?_, ?_⟩
  · intro p hp
    have hrw : getEntry (drawStep C ml eps logits x a rowShape d) p =
        (invalidate ((rowShape.drop 1).prod) (C.changed x (C.perturb d x))
          (r.data.map some)).getD p none := by
      rw [getEntry, hds]
      rfl
    rw [hrw]
    exact invalidate_getD_mem _ _ _ p hp
  · intro n hall
    exact runDraws_okP_of C ml eps logits x a rowShape n
      (fun j hj => drawStep_okP _ _ _ _ _ _ _ _ (hall j hj))

/-- Witness for C5: a concrete single-label draw whose detector reports
sample 0; the draw still succeeds and its entry 0 is NaN. -/
theorem claim_C5_witness :
    okP (drawStep stubC5 false 1 ⟨[1, 1], [0]⟩ ⟨[1, 2], [5, 5]⟩ ⟨[1, 2], [0, 0]⟩ [1] 0)
    ∧ (∀ p, p / ((([1] : List ℕ).drop 1).prod) ∈
          stubC5.changed ⟨[1, 2], [5, 5]⟩ (stubC5.perturb 0 ⟨[1, 2], [5, 5]⟩) →
        getEntry (drawStep stubC5 false 1 ⟨[1, 1], [0]⟩ ⟨[1, 2], [5, 5]⟩
          ⟨[1, 2], [0, 0]⟩ [1] 0) p = none)
    ∧ ∀ n : ℕ, (∀ j, j < n →
          okP (rosRowOf stubC5 false 1 ⟨[1, 1], [0]⟩ ⟨[1, 2], [5, 5]⟩ ⟨[1, 2], [0, 0]⟩ [1] j)) →
        okP ((runDraws stubC5 false 1 ⟨[1, 1], [0]⟩ ⟨[1, 2], [5, 5]⟩
          ⟨[1, 2], [0, 0]⟩ [1] n).1) := by
  have hok : okP (rosRowOf stubC5 false 1 ⟨[1, 1], [0]⟩ ⟨[1, 2], [5, 5]⟩
      ⟨[1, 2], [0, 0]⟩ [1] 0) := by
    obtain ⟨dta, hobj⟩ := objective_okP_single 1 ⟨[1, 1], [0]⟩
      (stubC5.predict (stubC5.perturb 0 ⟨[1, 2], [5, 5]⟩)) ⟨[1, 2], [0, 0]⟩
      (stubC5.explain (stubC5.perturb 0 ⟨[1, 2], [5, 5]⟩)) 1 1 rfl (Or.inl ⟨2, rfl⟩)
    exact ⟨_, rosRowOf_eq_of_objective stubC5 false 1 _ _ _ [1] 0 [1] dta hobj (bshape_self [1])⟩
  exact claim_C5 stubC5 false 1 ⟨[1, 1], [0]⟩ ⟨[1, 2], [5, 5]⟩ ⟨[1, 2], [0, 0]⟩ [1] 0 0 hok
    (by simp [stubC5])

/-- C8: with batch aggregation enabled, `evaluate_batch` returns exactly
the externally supplied aggregate of the full per-sample result, wrapped
in a one-element sequence; everything before the final wrap is unchanged. -/
theorem claim_C8 (cfg : Config) (C : Collab) (x : Arr ℝ) (y : List (List ℕ)) (a : Arr ℝ) :
    (evaluate_batch { cfg with returnAggregate := true } C x y a).1 =
      ((evaluate_batch { cfg with returnAggregate := false } C x y a).1).map
        (fun s => Scores.agg [C.aggregate s]) :=
  postProcess_agg cfg C y (a.shape.getD 0 0) (a.shape.getD 1 0)
    ((runDraws C cfg.multiLabel cfg.epsMin (C.predict x) x a
      (rowShapeOf cfg.multiLabel x a) cfg.nrSamples).1)

/-- C9: `evaluate_batch` hands `model.predict` the unperturbed batch
exactly once, as its first call before the sampling loop, followed only by
the per-draw perturbed batches; and every draw's stored row is the one
computed by `drawStep` from that single baseline `C.predict x`. -/
theorem claim_C9 (cfg : Config) (C : Collab) (x : Arr ℝ) (y : List (List ℕ)) (a : Arr ℝ) (d : ℕ)
    (hok : okP ((runDraws C cfg.multiLabel cfg.epsMin (C.predict x) x a
      (rowShapeOf cfg.multiLabel x a) cfg.nrSamples).1))
    (hd : d < cfg.nrSamples) :
    (evaluate_batch cfg C x y a).2 =
      x :: (List.range cfg.nrSamples).map (fun j => C.perturb j x)
    ∧ (okValD ((runDraws C cfg.multiLabel cfg.epsMin (C.predict x) x a
        (rowShapeOf cfg.multiLabel x a) cfg.nrSamples).1) []).getD d [] =
      okValD (drawStep C cfg.multiLabel cfg.epsMin (C.predict x) x a
        (rowShapeOf cfg.multiLabel x a) d) [] := by
  obtain ⟨rows, hrows⟩ := hok
  obtain ⟨hlen, htr, hall⟩ := runDraws_ok_parts C cfg.multiLabel cfg.epsMin (C.predict x) x a
    (rowShapeOf cfg.multiLabel x a) cfg.nrSamples rows hrows
  constructor
  · show x :: (runDraws C cfg.multiLabel cfg.epsMin (C.predict x) x a
      (rowShapeOf cfg.multiLabel x a) cfg.nrSamples).2 = _
    rw [htr]
  · rw [hrows, hall d hd]
    rfl

/-- Witness for C9 on a concrete one-draw single-label run. -/
theorem claim_C9_witness :
    (evaluate_batch ⟨false, false, 1, 1⟩ stubC9 ⟨[1, 2], [5, 5]⟩ [[0]] ⟨[1, 2], [0, 0]⟩).2 =
      ⟨[1, 2], [5, 5]⟩ :: (List.range 1).map (fun j => stubC9.perturb j ⟨[1, 2], [5, 5]⟩)
    ∧ (okValD ((runDraws stubC9 false 1 (stubC9.predict ⟨[1, 2], [5, 5]⟩) ⟨[1, 2], [5, 5]⟩
        ⟨[1, 2], [0, 0]⟩ (rowShapeOf false ⟨[1, 2], [5, 5]⟩ ⟨[1, 2], [0, 0]⟩) 1).1) []).getD 0 [] =
      okValD (drawStep stubC9 false 1 (stubC9.predict ⟨[1, 2], [5, 5]⟩) ⟨[1, 2], [5, 5]⟩
        ⟨[1, 2], [0, 0]⟩ (rowShapeOf false ⟨[1, 2], [5, 5]⟩ ⟨[1, 2], [0, 0]⟩) 0) [] := by
  have hok : okP ((runDraws stubC9 false 1 (stubC9.predict ⟨[1, 2], [5, 5]⟩) ⟨[1, 2], [5, 5]⟩
      ⟨[1, 2], [0, 0]⟩ (rowShapeOf false ⟨[1, 2], [5, 5]⟩ ⟨[1, 2], [0, 0]⟩) 1).1) := by
    apply runDraws_okP_of
    intro j hj
    have hj0 : j = 0 := Nat.lt_one_iff.mp hj
    subst hj0
    apply drawStep_okP
    obtain ⟨dta, hobj⟩ := objective_okP_single 1 (stubC9.predict ⟨[1, 2], [5, 5]⟩)
      (stubC9.predict (stubC9.perturb 0 ⟨[1, 2], [5, 5]⟩)) ⟨[1, 2], [0, 0]⟩
      (stubC9.explain (stubC9.perturb 0 ⟨[1, 2], [5, 5]⟩)) 1 1 rfl (Or.inl ⟨2, rfl⟩)
    exact ⟨_, rosRowOf_eq_of_objective stubC9 false 1 _ _ _ _ 0 [1] dta hobj (bshape_self [1])⟩
  exact claim_C9 ⟨false, false, 1, 1⟩ stubC9 ⟨[1, 2], [5, 5]⟩ [[0]] ⟨[1, 2], [0, 0]⟩ 0 hok
    (by norm_num)

/-- C1 (amended): when `e_x` has no zero element and every per-sample row
of `h_x - h_xs` has nonzero L2 norm, the objective equals the guard-free
formula — the rank-dispatched norm of the elementwise quotient
`(e_x - e_xs)/e_x` divided by the per-sample L2 norm of `h_x - h_xs` — so
no zero-guard is activated. -/
theorem claim_C1_amended (ml : Bool) (eps : ℝ) (h_x h_xs e_x e_xs : Arr ℝ)
    (he : ∀ v ∈ e_x.data, v ≠ 0)
    (hh : ∀ v ∈ chunk (lastDim h_x.shape)
        (List.zipWith (fun a b => a - b) h_x.data h_xs.data), l2norm v ≠ 0) :
    relative_output_stability_objective ml eps h_x h_xs e_x e_xs =
      objectiveNoGuard ml h_x h_xs e_x e_xs := by
  have hnom : nominatorArr eps e_x e_xs =
      (⟨e_x.shape, List.zipWith (fun a b => (a - b) / a) e_x.data e_xs.data⟩ : Arr ℝ) := by
    unfold nominatorArr
    congr 1
    apply zipWith_congr_fn
    intro v hv b
    rw [guardElem_eq, if_neg (he v hv)]
  have hden : denominatorArr eps h_x h_xs =
      normLast ⟨h_x.shape, List.zipWith (fun a b => a - b) h_x.data h_xs.data⟩ := by
    unfold denominatorArr normLast
    simp only
    congr 1
    rw [List.map_map]
    apply List.map_congr_left
    intro v hv
    simp only [Function.comp_apply]
    rw [addGuard_eq, if_neg (hh v hv)]
  unfold relative_output_stability_objective objectiveNoGuard
  rw [hnom, hden]

/-- Witness for the amended C1 at a concrete rank-2 input with nonzero
`e_x` and differing logits. -/
theorem claim_C1_witness :
    relative_output_stability_objective false (1 / 1000000) ⟨[1, 1], [5]⟩ ⟨[1, 1], [4]⟩
        ⟨[1, 2], [1, 1]⟩ ⟨[1, 2], [0, 0]⟩ =
      objectiveNoGuard false ⟨[1, 1], [5]⟩ ⟨[1, 1], [4]⟩ ⟨[1, 2], [1, 1]⟩ ⟨[1, 2], [0, 0]⟩ := by
  apply claim_C1_amended
  · intro v hv
    simp only [List.mem_cons, List.not_mem_nil, or_false] at hv
    rcases hv with h | h <;> (rw [h]; norm_num)
  · intro v hv
    norm_num [chunk, lastDim, List.getLastD] at hv
    subst hv
    intro h0
    rw [l2norm_eq_zero_iff] at h0
    norm_num [sumSq] at h0

/-- C1 is false as stated: at `e_x = [[1,1]]`, `e_xs = [[0,0]]`,
`h_x = [[5]]`, `h_xs = [[4]]` (no zero element, `h_x ≠ h_xs`) the code
computes `‖(e_x-e_xs)/e_x‖ / ‖h_x-h_xs‖ = √2`, while the claimed formula
`‖e_x-e_xs‖/‖e_x‖ ÷ ‖h_x-h_xs‖` yields `1`, and `√2 ≠ 1`. -/
theorem claim_C1_counterexample :
    relative_output_stability_objective false (1 / 1000000) ⟨[1, 1], [5]⟩ ⟨[1, 1], [4]⟩
        ⟨[1, 2], [1, 1]⟩ ⟨[1, 2], [0, 0]⟩ = Except.ok ⟨[1], [Real.sqrt 2]⟩
    ∧ objectiveSpecNormQuotient false ⟨[1, 1], [5]⟩ ⟨[1, 1], [4]⟩
        ⟨[1, 2], [1, 1]⟩ ⟨[1, 2], [0, 0]⟩ = Except.ok ⟨[1], [1]⟩
    ∧ Real.sqrt 2 ≠ 1 := by
  have hsq2 : l2norm [1, 1] = Real.sqrt 2 := by
    unfold l2norm sumSq
    norm_num
  have hone : l2norm [(1 : ℝ)] = 1 := by
    unfold l2norm sumSq
    norm_num
  have hnomE : nominatorArr (1 / 1000000) ⟨[1, 2], [1, 1]⟩ ⟨[1, 2], [0, 0]⟩ =
      (⟨[1, 2], [1, 1]⟩ : Arr ℝ) := by
    unfold nominatorArr
    congr 1
    norm_num [guardElem_eq]
  have hnormE : normLast ⟨[1, 2], ([1, 1] : List ℝ)⟩ = ⟨[1], [Real.sqrt 2]⟩ := by
    unfold normLast
    congr 1
    norm_num [chunk, lastDim, List.getLastD, List.range_succ, hsq2]
  have hdenFull : denominatorArr (1 / 1000000) ⟨[1, 1], [5]⟩ ⟨[1, 1], [4]⟩ =
      (⟨[1], [1]⟩ : Arr ℝ) := by
    unfold denominatorArr normLast
    simp only
    congr 1
    norm_num [chunk, lastDim, List.getLastD, List.range_succ, hone]
  have hdiv : broadcastOp (fun a b => a / b) 0 (⟨[1], [Real.sqrt 2]⟩ : Arr ℝ) ⟨[1], [1]⟩ =
      Except.ok ⟨[1], [Real.sqrt 2]⟩ := by
    rw [broadcastOp_ok _ _ _ _ [1] (bshape_self [1])]
    congr 2
    norm_num [broadcastGet, srcIndex, unflatten, flattenIx]
  have hsqrt2_ne : Real.sqrt 2 ≠ 1 := by
    intro h
    have h2 := Real.sq_sqrt (show (0 : ℝ) ≤ 2 by norm_num)
    rw [h] at h2
    norm_num at h2
  refine ⟨?_, ?_, hsqrt2_ne⟩
  · rw [objective_eq_of_normFor false (1 / 1000000) ⟨[1, 1], [5]⟩ ⟨[1, 1], [4]⟩
      ⟨[1, 2], [1, 1]⟩ ⟨[1, 2], [0, 0]⟩ normLast (normFor_two false)]
    simp only [Bool.false_eq_true, if_false]
    rw [hnomE, hnormE, hdenFull, hdiv]
  · have hzipd : List.zipWith (fun a b => a - b) ([1, 1] : List ℝ) [0, 0] = [1, 1] := by
      norm_num
    have hziph : List.zipWith (fun a b => a - b) ([5] : List ℝ) [4] = [1] := by
      norm_num
    have hnormH : normLast ⟨[1, 1], ([1] : List ℝ)⟩ = ⟨[1], [1]⟩ := by
      unfold normLast
      congr 1
      norm_num [chunk, lastDim, List.getLastD, List.range_succ, hone]
    have hdivSelf : broadcastOp (fun a b => a / b) 0 (⟨[1], [Real.sqrt 2]⟩ : Arr ℝ)
        ⟨[1], [Real.sqrt 2]⟩ = Except.ok ⟨[1], [1]⟩ := by
      rw [broadcastOp_ok _ _ _ _ [1] (bshape_self [1])]
      congr 2
      have hne : Real.sqrt 2 ≠ 0 := by positivity
      norm_num [broadcastGet, srcIndex, unflatten, flattenIx, div_self hne]
    have hdivOne : broadcastOp (fun a b => a / b) 0 (⟨[1], [(1 : ℝ)]⟩ : Arr ℝ)
        ⟨[1], [1]⟩ = Except.ok ⟨[1], [1]⟩ := by
      rw [broadcastOp_ok _ _ _ _ [1] (bshape_self [1])]
      congr 2
      norm_num [broadcastGet, srcIndex, unflatten, flattenIx]
    unfold objectiveSpecNormQuotient
    rw [show normFor false ((⟨[1, 2], ([1, 1] : List ℝ)⟩ : Arr ℝ).shape.length) =
      some normLast from normFor_two false]
    simp only
    rw [hzipd, hziph, hnormE, hnormH, hdivSelf]
    simp only [Bool.false_eq_true, if_false]
    rw [hdivOne]

theorem postProcess_err (cfg : Config) (C : Collab) (y : List (List ℕ)) (N L : ℕ) (e : Err) :
    postProcess cfg C y N L (Except.error e) = Except.error e := rfl

theorem runDraws_one_err (C : Collab) (ml : Bool) (eps : ℝ) (logits x a : Arr ℝ)
    (rowShape : List ℕ) (e : Err)
    (h : drawStep C ml eps logits x a rowShape 0 = Except.error e) :
    (runDraws C ml eps logits x a rowShape 1).1 = Except.error e := by
  rw [show (1 : ℕ) = 0 + 1 from rfl, runDraws]
  rw [show runDraws C ml eps logits x a rowShape 0 = (Except.ok [], []) from rfl]
  rw [h]

/-- C7 is false as stated: in multi-label mode with a rank-3 explanation
tensor carrying a trailing label axis (`2 × 1 × 3`, `y = [[0,1],[2]]`),
the rank-3 norm collapses the label axis too, the objective broadcasts to
shape `2 × 2`, the assignment into the `2 × 1` draw-matrix row fails, and
`evaluate_batch` aborts with a shape error instead of returning a nested
list. -/
theorem claim_C7_counterexample :
    (evaluate_batch ⟨true, false, 1, 1⟩ stubC7 ⟨[2, 2], [0, 0, 0, 0]⟩ [[0, 1], [2]]
      ⟨[2, 1, 3], [1, 1, 1, 1, 1, 1]⟩).1 = Except.error Err.shapeMismatch := by
  have hobj : ∃ dta, relative_output_stability_objective true 1
      (stubC7.predict ⟨[2, 2], [0, 0, 0, 0]⟩)
      (stubC7.predict (stubC7.perturb 0 ⟨[2, 2], [0, 0, 0, 0]⟩))
      ⟨[2, 1, 3], [1, 1, 1, 1, 1, 1]⟩
      (stubC7.explain (stubC7.perturb 0 ⟨[2, 2], [0, 0, 0, 0]⟩)) =
        Except.ok ⟨[2, 2], dta⟩ := by
    rw [objective_eq_of_normFor true 1 (stubC7.predict ⟨[2, 2], [0, 0, 0, 0]⟩)
      (stubC7.predict (stubC7.perturb 0 ⟨[2, 2], [0, 0, 0, 0]⟩))
      ⟨[2, 1, 3], [1, 1, 1, 1, 1, 1]⟩
      (stubC7.explain (stubC7.perturb 0 ⟨[2, 2], [0, 0, 0, 0]⟩))
      normLast2 (normFor_three true)]
    rw [if_pos rfl]
    refine ⟨_, broadcastOp_ok _ _ _ _ [2, 2] ?_⟩
    rw [normLast2_shape, nominatorArr_shape, expandLast_shape, denominatorArr_shape]
    decide
  obtain ⟨dta, ho⟩ := hobj
  have hros : rosRowOf stubC7 true 1 (stubC7.predict ⟨[2, 2], [0, 0, 0, 0]⟩)
      ⟨[2, 2], [0, 0, 0, 0]⟩ ⟨[2, 1, 3], [1, 1, 1, 1, 1, 1]⟩
      (rowShapeOf true ⟨[2, 2], [0, 0, 0, 0]⟩ ⟨[2, 1, 3], [1, 1, 1, 1, 1, 1]⟩) 0 =
      Except.error Err.shapeMismatch := by
    simp only [rosRowOf, ho]
    rw [broadcastTo_err (⟨[2, 2], dta⟩ : Arr ℝ) (0 : ℝ)
      (rowShapeOf true ⟨[2, 2], [0, 0, 0, 0]⟩ ⟨[2, 1, 3], [1, 1, 1, 1, 1, 1]⟩)
      (show ¬ bshape [2, 2]
          (rowShapeOf true ⟨[2, 2], [0, 0, 0, 0]⟩ ⟨[2, 1, 3], [1, 1, 1, 1, 1, 1]⟩) =
        some (rowShapeOf true ⟨[2, 2], [0, 0, 0, 0]⟩ ⟨[2, 1, 3], [1, 1, 1, 1, 1, 1]⟩)
       from by decide)]
  have hds := drawStep_err stubC7 true 1 (stubC7.predict ⟨[2, 2], [0, 0, 0, 0]⟩)
    ⟨[2, 2], [0, 0, 0, 0]⟩ ⟨[2, 1, 3], [1, 1, 1, 1, 1, 1]⟩
    (rowShapeOf true ⟨[2, 2], [0, 0, 0, 0]⟩ ⟨[2, 1, 3], [1, 1, 1, 1, 1, 1]⟩) 0
    Err.shapeMismatch hros
  have hrd := runDraws_one_err stubC7 true 1 (stubC7.predict ⟨[2, 2], [0, 0, 0, 0]⟩)
    ⟨[2, 2], [0, 0, 0, 0]⟩ ⟨[2, 1, 3], [1, 1, 1, 1, 1, 1]⟩
    (rowShapeOf true ⟨[2, 2], [0, 0, 0, 0]⟩ ⟨[2, 1, 3], [1, 1, 1, 1, 1, 1]⟩)
    Err.shapeMismatch hds
  show postProcess ⟨true, false, 1, 1⟩ stubC7 [[0, 1], [2]] 2 1
    ((runDraws stubC7 true 1 (stubC7.predict ⟨[2, 2], [0, 0, 0, 0]⟩)
      ⟨[2, 2], [0, 0, 0, 0]⟩ ⟨[2, 1, 3], [1, 1, 1, 1, 1, 1]⟩
      (rowShapeOf true ⟨[2, 2], [0, 0, 0, 0]⟩ ⟨[2, 1, 3], [1, 1, 1, 1, 1, 1]⟩) 1).1) =
    Except.error Err.shapeMismatch
  rw [hrd]
  exact postProcess_err _ _ _ _ _ _

theorem postProcess_ml_ok (cfg : Config) (C : Collab) (y : List (List ℕ)) (N L : ℕ)
    (rows : List (List (Option ℝ))) (res : List (Option ℝ)) (ns : List (List (Option ℝ)))
    (hml : cfg.multiLabel = true) (hagg : cfg.returnAggregate = false)
    (hres : maxRows rows = Except.ok res)
    (hrs : mlReshape N L res y = Except.ok ns) :
    postProcess cfg C y N L (Except.ok rows) = Except.ok (Scores.nested ns) := by
  simp [postProcess, reducedResult, hres, hml, hagg, hrs]

/-- C7 (amended): in multi-label mode, whenever every draw succeeds — as it
does for a rank-5 explanation tensor whose label axis is axis 1, the shape
the draw matrix `[nr_samples, N, L]` is built from — and the label batch
holds valid indices, `evaluate_batch` returns a nested list with one inner
list per sample whose length is that sample's label count, each entry
selected from the reduced result at that sample's row and that label's
column. -/
theorem claim_C7_amended (cfg : Config) (C : Collab) (x a : Arr ℝ) (y : List (List ℕ))
    (hml : cfg.multiLabel = true) (hagg : cfg.returnAggregate = false) (hn : 0 < cfg.nrSamples)
    (hok : okP ((runDraws C cfg.multiLabel cfg.epsMin (C.predict x) x a
      (rowShapeOf cfg.multiLabel x a) cfg.nrSamples).1))
    (hy : ∀ pr ∈ y.enum, pr.1 < a.shape.getD 0 0 ∧ ∀ l ∈ pr.2, l < a.shape.getD 1 0) :
    ∃ ns, (evaluate_batch cfg C x y a).1 = Except.ok (Scores.nested ns)
      ∧ ns.length = y.length
      ∧ ∀ i, i < y.length →
          (ns.getD i []).length = (y.getD i []).length
          ∧ ∀ j, j < (y.getD i []).length →
              (ns.getD i []).getD j none =
                getEntry (reducedResult ((runDraws C cfg.multiLabel cfg.epsMin (C.predict x) x a
                    (rowShapeOf cfg.multiLabel x a) cfg.nrSamples).1))
                  (i * a.shape.getD 1 0 + (y.getD i []).getD j 0) := by
  obtain ⟨rows, hrows⟩ := hok
  obtain ⟨hlen, htr, hall⟩ := runDraws_ok_parts C cfg.multiLabel cfg.epsMin (C.predict x) x a
    (rowShapeOf cfg.multiLabel x a) cfg.nrSamples rows hrows
  have hnnil : rows ≠ [] := by
    intro h0
    rw [h0] at hlen
    simp at hlen
    omega
  obtain ⟨res, hres⟩ : ∃ res, maxRows rows = Except.ok res := by
    cases rows with
    | nil => exact absurd rfl hnnil
    | cons r rs => exact ⟨_, maxRows_cons r rs⟩
  have hrs : mlReshape (a.shape.getD 0 0) (a.shape.getD 1 0) res y = Except.ok
      (y.enum.map (fun pr => pr.2.map
        (fun l => res.getD (pr.1 * a.shape.getD 1 0 + l) none))) := by
    unfold mlReshape
    apply mapME_ok
    intro pr hpr
    apply mapME_ok
    intro l hl
    rw [if_pos ⟨(hy pr hpr).1, (hy pr hpr).2 l hl⟩]
  refine ⟨y.enum.map (fun pr => pr.2.map
      (fun l => res.getD (pr.1 * a.shape.getD 1 0 + l) none)), ?_, ?_, ?_⟩
  · show postProcess cfg C y (a.shape.getD 0 0) (a.shape.getD 1 0)
      ((runDraws C cfg.multiLabel cfg.epsMin (C.predict x) x a
        (rowShapeOf cfg.multiLabel x a) cfg.nrSamples).1) = _
    rw [hrows]
    exact postProcess_ml_ok cfg C y (a.shape.getD 0 0) (a.shape.getD 1 0) rows res _
      hml hagg hres hrs
  · simp [List.enum_length]
  · intro i hi
    have hienum : i < y.enum.length := by
      rw [List.enum_length]
      exact hi
    constructor
    · rw [getD_map_lt _ _ i (0, []) [] hienum, enum_getD y i hi]
      simp
    · intro j hj
      rw [getD_map_lt _ _ i (0, []) [] hienum, enum_getD y i hi]
      simp only
      rw [getD_map_lt _ _ j 0 none hj]
      rw [hrows]
      simp [getEntry, okValD, reducedResult, hres]

/-- Witness for the amended C7: one sample, one label, a rank-5
explanation tensor of shape `1 × 1 × 1 × 1 × 1`, one draw. -/
theorem claim_C7_witness :
    ∃ ns, (evaluate_batch ⟨true, false, 1, 1⟩ stubC7w ⟨[1, 2], [5, 5]⟩ [[0]]
        ⟨[1, 1, 1, 1, 1], [0]⟩).1 = Except.ok (Scores.nested ns)
      ∧ ns.length = ([[0]] : List (List ℕ)).length
      ∧ ∀ i, i < ([[0]] : List (List ℕ)).length →
          (ns.getD i []).length = (([[0]] : List (List ℕ)).getD i []).length
          ∧ ∀ j, j < (([[0]] : List (List ℕ)).getD i []).length →
              (ns.getD i []).getD j none =
                getEntry (reducedResult ((runDraws stubC7w true 1
                    (stubC7w.predict ⟨[1, 2], [5, 5]⟩) ⟨[1, 2], [5, 5]⟩
                    ⟨[1, 1, 1, 1, 1], [0]⟩
                    (rowShapeOf true ⟨[1, 2], [5, 5]⟩ ⟨[1, 1, 1, 1, 1], [0]⟩) 1).1))
                  (i * (⟨[1, 1, 1, 1, 1], [0]⟩ : Arr ℝ).shape.getD 1 0 +
                    (([[0]] : List (List ℕ)).getD i []).getD j 0) := by
  have hok : okP ((runDraws stubC7w true 1 (stubC7w.predict ⟨[1, 2], [5, 5]⟩)
      ⟨[1, 2], [5, 5]⟩ ⟨[1, 1, 1, 1, 1], [0]⟩
      (rowShapeOf true ⟨[1, 2], [5, 5]⟩ ⟨[1, 1, 1, 1, 1], [0]⟩) 1).1) := by
    apply runDraws_okP_of
    intro j hj
    have hj0 : j = 0 := Nat.lt_one_iff.mp hj
    subst hj0
    apply drawStep_okP
    obtain ⟨dta, hobj⟩ := objective_okP_ml5 1 (stubC7w.predict ⟨[1, 2], [5, 5]⟩)
      (stubC7w.predict (stubC7w.perturb 0 ⟨[1, 2], [5, 5]⟩)) ⟨[1, 1, 1, 1, 1], [0]⟩
      (stubC7w.explain (stubC7w.perturb 0 ⟨[1, 2], [5, 5]⟩)) 1 1 1 1 1 1 rfl rfl
    exact ⟨_, rosRowOf_eq_of_objective stubC7w true 1 _ _ _ _ 0 [1, 1] dta hobj
      (bshape_self [1, 1])⟩
  exact claim_C7_amended ⟨true, false, 1, 1⟩ stubC7w ⟨[1, 2], [5, 5]⟩
    ⟨[1, 1, 1, 1, 1], [0]⟩ [[0]] rfl rfl (by norm_num) hok (by decide)

end Ros
